import Mathlib

/-!
Shallow embedding of `mission_systems/shooter/firmware/shooter.cpp`
(the `USE_LINEAR_FEEDER` variant, which is the one compiled: the file
defines `USE_LINEAR_FEEDER` at the top).

Machine integers (`int` / `int8`) are modelled as `ℤ`; `unsigned long`
(32-bit on Arduino) time values are `ℕ`, with the unsigned subtraction
`millis() - start` modelled explicitly modulo `2^32`.  C++ integer
division truncates toward zero, so Arduino's `map` is embedded with
`Int.tdiv`.
-/

/-- Arduino's `map(x, in_min, in_max, out_min, out_max)`:
`(x - in_min) * (out_max - out_min) / (in_max - in_min) + out_min`
with C++ (truncate-toward-zero) division. -/
def arduinoMap (x inMin inMax outMin outMax : ℤ) : ℤ :=
  ((x - inMin) * (outMax - outMin)).tdiv (inMax - inMin) + outMin

/-- State of the `Pololu` feeder controller: the stored `speed` field,
the two direction output lines `inA`/`inB` (`digitalWrite` HIGH = `true`)
and the last `analogWrite` PWM value, plus the inherited
`SpeedController::reversed` flag. -/
structure PololuState where
  speed : ℤ
  inA : Bool
  inB : Bool
  pwm : ℤ
  reversed : Bool
  deriving DecidableEq, Repr

namespace Pololu

/-- `Pololu::_set(int s)`: store `speed = s`, then drive the direction
lines and PWM according to the sign of `s`. -/
def rawSet (s : ℤ) (p : PololuState) : PololuState :=
  let p := { p with speed := s }
  if s = 0 then
    { p with inA := false, inB := false, pwm := 0 }
  else if s < 0 then
    { p with inA := true, inB := false, pwm := arduinoMap s 0 (-100) 0 255 }
  else
    { p with inA := false, inB := true, pwm := arduinoMap s 0 100 0 255 }

/-- `SpeedController::set(int s)` specialised to `Pololu`. -/
def set (s : ℤ) (p : PololuState) : PololuState :=
  if p.reversed then rawSet (-s) p else rawSet s p

/-- `Pololu::_get()` returns the stored `speed`. -/
def rawGet (p : PololuState) : ℤ := p.speed

/-- `SpeedController::get()` specialised to `Pololu`. -/
def get (p : PololuState) : ℤ :=
  if p.reversed then -(rawGet p) else rawGet p

/-- `SpeedController::on()` = `set(100)`. -/
def onCmd (p : PololuState) : PololuState := set 100 p

/-- `SpeedController::off()` = `set(0)`. -/
def off (p : PololuState) : PololuState := set 0 p

/-- `SpeedController::reverse()` = `set(-100)`. -/
def reverse (p : PololuState) : PololuState := set (-100) p

end Pololu

/-- `Pololu feeder(...)` as constructed: `speed = 0`, direction lines
initially inactive, `reversed = false` (from the `SpeedController`
constructor). -/
def feederInit : PololuState :=
  { speed := 0, inA := false, inB := false, pwm := 0, reversed := false }

/-- State of the `Victor` shooter controller: ramp target `goal`, last
written pulse width `cur`, and the inherited `reversed` flag. -/
structure VictorState where
  goal : ℤ
  cur : ℤ
  reversed : Bool
  deriving DecidableEq, Repr

namespace Victor

/-- `Victor::_set(int s)`: `goal = map(s, -100, 100, 1000, 2000)`. -/
def rawSet (s : ℤ) (v : VictorState) : VictorState :=
  { v with goal := arduinoMap s (-100) 100 1000 2000 }

/-- `SpeedController::set(int s)` specialised to `Victor`. -/
def set (s : ℤ) (v : VictorState) : VictorState :=
  if v.reversed then rawSet (-s) v else rawSet s v

/-- `Victor::_get()`: `map(cur, 1000, 2000, -100, 100)` — reads the
ramped `cur`, not `goal`. -/
def rawGet (v : VictorState) : ℤ := arduinoMap v.cur 1000 2000 (-100) 100

/-- `SpeedController::get()` specialised to `Victor`. -/
def get (v : VictorState) : ℤ :=
  if v.reversed then -(rawGet v) else rawGet v

/-- `SpeedController::on()` = `set(100)`. -/
def onCmd (v : VictorState) : VictorState := set 100 v

/-- `SpeedController::off()` = `set(0)`. -/
def off (v : VictorState) : VictorState := set 0 v

/-- `Victor::run()`: if `cur != goal`, snap to 1500 when `goal == 1500`,
otherwise move `cur` by 100 toward the side of 1500 that `goal` lies on,
then write `cur` to the servo (the hardware write is external). -/
def run (v : VictorState) : VictorState :=
  if v.cur ≠ v.goal then
    { v with cur :=
        if v.goal = 1500 then 1500
        else if v.goal < 1500 then v.cur - 100
        else v.cur + 100 }
  else v

/-- `n` successive calls of `Victor::run()`. -/
def runN (n : ℕ) (v : VictorState) : VictorState := Victor.run^[n] v

end Victor

/-- `Victor shooter(SHOOTER_PIN)` right after `setup()` ran
`shooter.setReversed(true); shooter.init();`: `goal = cur = 1500`,
`reversed = true`. -/
def shooterInit : VictorState := { goal := 1500, cur := 1500, reversed := true }

/-- A `Victor` as constructed (`goal = 1500`, `cur = goal`,
`reversed = false` from the `SpeedController` constructor) after one
direct `_set(s)`. -/
def victorAfterRawSet (s : ℤ) : VictorState :=
  Victor.rawSet s { goal := 1500, cur := 1500, reversed := false }

/-- `AutoController` fields (linear-feeder variant): `state` is the
`int` tag (0 = idle, 1 = loading, 2 = firing), the two phase start
times, and the `loaded` flag. -/
structure CtrlState where
  state : ℤ
  start_load_time : ℕ
  start_fire_time : ℕ
  loaded : Bool
  deriving DecidableEq, Repr

/-- `AutoController::reset()` / the constructor. -/
def ctrlReset : CtrlState :=
  { state := 0, start_load_time := 0, start_fire_time := 0, loaded := false }

/-- The global mutable state the sequencer touches: the `feeder` and
`shooter` singletons and the `autoController` fields. -/
structure Sys where
  feeder : PololuState
  shooter : VictorState
  ctrl : CtrlState
  deriving DecidableEq, Repr

/-- `unsigned long` modulus (32-bit on Arduino): `2^32`. -/
def ULMOD : ℕ := 4294967296

/-- Unsigned 32-bit subtraction `t - s`, as C computes
`millis() - start_…_time`. -/
def wrapSub (t s : ℕ) : ℕ := (ULMOD + t - s) % ULMOD

/-- `RETRACT_TIME` (ms). -/
def RETRACT_TIME : ℕ := 1000

/-- `LOAD_TIME` (ms). -/
def LOAD_TIME : ℕ := 650

/-- `QUICKFIRE_TIME` (ms). -/
def QUICKFIRE_TIME : ℕ := 300

namespace Sys

/-- `AutoController::load()` at time `t = millis()`. -/
def load (t : ℕ) (s : Sys) : Sys :=
  { s with ctrl := { s.ctrl with start_load_time := t, loaded := false, state := 1 } }

/-- `AutoController::fire()` at time `t = millis()`. -/
def fire (t : ℕ) (s : Sys) : Sys :=
  { s with ctrl := { s.ctrl with start_fire_time := t, state := 2 } }

/-- `AutoController::cancel()`: `feeder.off(); shooter.off(); reset();`. -/
def cancel (s : Sys) : Sys :=
  { s with feeder := Pololu.off s.feeder,
           shooter := Victor.off s.shooter,
           ctrl := ctrlReset }

/-- `AutoController::runLoad()` at time `t = millis()`. -/
def runLoad (t : ℕ) (s : Sys) : Sys :=
  let cur_time := wrapSub t s.ctrl.start_load_time
  if cur_time < RETRACT_TIME then
    { s with feeder := Pololu.reverse s.feeder }
  else if cur_time < RETRACT_TIME + LOAD_TIME then
    { s with feeder := Pololu.onCmd s.feeder }
  else
    { s with feeder := Pololu.off s.feeder,
             shooter := Victor.onCmd s.shooter,
             ctrl := { s.ctrl with state := 0, loaded := true, start_load_time := 0 } }

/-- `AutoController::runFire()` at time `t = millis()`. -/
def runFire (t : ℕ) (s : Sys) : Sys :=
  let cur_time := wrapSub t s.ctrl.start_fire_time
  if cur_time < QUICKFIRE_TIME then
    { s with shooter := Victor.onCmd s.shooter, feeder := Pololu.onCmd s.feeder }
  else
    { s with feeder := Pololu.off s.feeder,
             shooter := Victor.off s.shooter,
             ctrl := { s.ctrl with start_fire_time := 0, loaded := false, state := 0 } }

/-- `AutoController::run()` (the sequencer tick) at time `t = millis()`:
dispatch on `state`; `case 0` and the implicit default do nothing. -/
def tick (t : ℕ) (s : Sys) : Sys :=
  if s.ctrl.state = 1 then runLoad t s
  else if s.ctrl.state = 2 then runFire t s
  else s

end Sys

/-- The whole system right after `setup()`. -/
def sysInit : Sys := { feeder := feederInit, shooter := shooterInit, ctrl := ctrlReset }

/-- States reachable from startup by any interleaving of the sequencer
commands and ticks (each at an arbitrary `millis()` value). -/
inductive Reachable : Sys → Prop
  | init : Reachable sysInit
  | load (t : ℕ) {s : Sys} : Reachable s → Reachable (Sys.load t s)
  | fire (t : ℕ) {s : Sys} : Reachable s → Reachable (Sys.fire t s)
  | cancel {s : Sys} : Reachable s → Reachable (Sys.cancel s)
  | tick (t : ℕ) {s : Sys} : Reachable s → Reachable (Sys.tick t s)

/-- One externally issued sequencer call. -/
inductive Op
  | load (t : ℕ)
  | fire (t : ℕ)
  | cancel
  | tick (t : ℕ)

/-- Apply one call to the system. -/
def applyOp (s : Sys) (o : Op) : Sys :=
  match o with
  | Op.load t => Sys.load t s
  | Op.fire t => Sys.fire t s
  | Op.cancel => Sys.cancel s
  | Op.tick t => Sys.tick t s

/-- Apply a sequence of calls, oldest first. -/
def applyOps (l : List Op) (s : Sys) : Sys := l.foldl applyOp s

/-- The sequencer is in its Loading phase. -/
def isLoading (s : Sys) : Prop := s.ctrl.state = 1

/-- The sequencer is in its Firing phase. -/
def isFiring (s : Sys) : Prop := s.ctrl.state = 2

/-- `std_srvs::Trigger::Response` / `ShooterManual::Response`: rosserial
zero-initialises the `success` field, so a handler that never assigns it
leaves it `false`. -/
structure SrvResponse where
  success : Bool
  deriving DecidableEq, Repr

/-- A freshly allocated response, as rosserial hands it to a callback. -/
def responseInit : SrvResponse := { success := false }

/-- `navigator_msgs::ShooterManual::Request`. -/
structure ShooterManualRequest where
  feeder : ℤ
  shooter : ℤ

/-- `Comms::fireCallback` (linear-feeder variant): `autoController.fire();
res.success = true;`. -/
def fireCallback (t : ℕ) (s : Sys) (res : SrvResponse) : Sys × SrvResponse :=
  (Sys.fire t s, { res with success := true })

/-- `Comms::loadCallback`: `autoController.load(); res.success = true;`. -/
def loadCallback (t : ℕ) (s : Sys) (res : SrvResponse) : Sys × SrvResponse :=
  (Sys.load t s, { res with success := true })

/-- `Comms::cancelCallback`: `autoController.cancel(); res.success = true;`. -/
def cancelCallback (s : Sys) (res : SrvResponse) : Sys × SrvResponse :=
  (Sys.cancel s, { res with success := true })

/-- `Comms::manualCallback` (linear-feeder variant):
`autoController.cancel(); feeder.set(req.feeder); shooter.set(req.shooter);`
— it never writes `res.success`. -/
def manualCallback (req : ShooterManualRequest) (s : Sys) (res : SrvResponse) :
    Sys × SrvResponse :=
  let s1 := Sys.cancel s
  let s2 := { s1 with feeder := Pololu.set req.feeder s1.feeder }
  let s3 := { s2 with shooter := Victor.set req.shooter s2.shooter }
  (s3, res)

/-! ### Helper lemmas about `Victor::run` -/

theorem Victor.run_goal (v : VictorState) : (Victor.run v).goal = v.goal := by
  unfold Victor.run
  split <;> rfl

theorem Victor.run_reversed (v : VictorState) : (Victor.run v).reversed = v.reversed := by
  unfold Victor.run
  split <;> rfl

theorem Victor.run_of_eq {v : VictorState} (h : v.cur = v.goal) : Victor.run v = v := by
  unfold Victor.run
  simp [h]

theorem Victor.runN_goal (n : ℕ) (v : VictorState) : (Victor.runN n v).goal = v.goal := by
  induction n with
  | zero => rfl
  | succ m ih =>
      unfold Victor.runN at *
      rw [Function.iterate_succ_apply', Victor.run_goal, ih]

theorem Victor.runN_succ (n : ℕ) (v : VictorState) :
    Victor.runN (n + 1) v = Victor.run (Victor.runN n v) := by
  unfold Victor.runN
  exact Function.iterate_succ_apply' Victor.run n v

theorem Victor.runN_add (m n : ℕ) (v : VictorState) :
    Victor.runN (m + n) v = Victor.runN m (Victor.runN n v) := by
  unfold Victor.runN
  exact Function.iterate_add_apply Victor.run m n v

theorem Victor.runN_fixed {v : VictorState} (h : v.cur = v.goal) (n : ℕ) :
    Victor.runN n v = v := by
  unfold Victor.runN
  exact Function.iterate_fixed (Victor.run_of_eq h) n

/-- When the goal is the neutral 1500, a single `run()` always leaves
`cur = 1500` (snap branch, or `cur` was already there). -/
theorem Victor.run_snap {v : VictorState} (h : v.goal = 1500) :
    (Victor.run v).cur = 1500 := by
  unfold Victor.run
  by_cases hc : v.cur = v.goal
  · simp [hc, h]
  · simp only [hc, h]
    split <;> simp_all

theorem Victor.runN_snap {v : VictorState} (h : v.goal = 1500) {n : ℕ} (hn : 1 ≤ n) :
    (Victor.runN n v).cur = 1500 := by
  obtain ⟨m, rfl⟩ : ∃ m, n = m + 1 := ⟨n - 1, by omega⟩
  rw [Victor.runN_succ]
  exact Victor.run_snap (by rw [Victor.runN_goal, h])

/-- One ramp step when the goal is strictly above 1500 and not yet reached. -/
theorem Victor.run_up {v : VictorState} (hg : 1500 < v.goal) (hc : v.cur ≠ v.goal) :
    (Victor.run v).cur = v.cur + 100 := by
  unfold Victor.run
  simp only [hc, if_true, ne_eq, not_false_iff]
  have h1 : ¬v.goal = 1500 := by omega
  have h2 : ¬v.goal < 1500 := by omega
  simp [h1, h2]

/-- One ramp step when the goal is strictly below 1500 and not yet reached. -/
theorem Victor.run_down {v : VictorState} (hg : v.goal < 1500) (hc : v.cur ≠ v.goal) :
    (Victor.run v).cur = v.cur - 100 := by
  unfold Victor.run
  simp only [hc, if_true, ne_eq, not_false_iff]
  have h1 : ¬v.goal = 1500 := by omega
  simp [h1, hg]

/-- If the goal is above 1500 and the ramp never lands on it,
`cur` advances by exactly 100 per call forever. -/
theorem Victor.runN_up_formula {v : VictorState} (hg : 1500 < v.goal)
    (h : ∀ k : ℕ, v.cur + 100 * k ≠ v.goal) (n : ℕ) :
    (Victor.runN n v).cur = v.cur + 100 * n := by
  induction n with
  | zero => simp [Victor.runN]
  | succ m ih =>
      rw [Victor.runN_succ]
      have hgoal : (Victor.runN m v).goal = v.goal := Victor.runN_goal m v
      have hne : (Victor.runN m v).cur ≠ (Victor.runN m v).goal := by
        rw [ih, hgoal]; exact h m
      rw [Victor.run_up (by rw [hgoal]; exact hg) hne, ih]
      push_cast
      ring

/-- If the goal is below 1500 and the ramp never lands on it,
`cur` recedes by exactly 100 per call forever. -/
theorem Victor.runN_down_formula {v : VictorState} (hg : v.goal < 1500)
    (h : ∀ k : ℕ, v.cur - 100 * k ≠ v.goal) (n : ℕ) :
    (Victor.runN n v).cur = v.cur - 100 * n := by
  induction n with
  | zero => simp [Victor.runN]
  | succ m ih =>
      rw [Victor.runN_succ]
      have hgoal : (Victor.runN m v).goal = v.goal := Victor.runN_goal m v
      have hne : (Victor.runN m v).cur ≠ (Victor.runN m v).goal := by
        rw [ih, hgoal]; exact h m
      rw [Victor.run_down (by rw [hgoal]; exact hg) hne, ih]
      push_cast
      ring

/-- Exact-multiple ascent: if `goal = cur + 100·d` with the goal above
1500, the first `d` calls step linearly. -/
theorem Victor.runN_up_reach {v : VictorState} (hg : 1500 < v.goal) (d : ℕ)
    (hd : v.goal = v.cur + 100 * d) :
    ∀ i, i ≤ d → (Victor.runN i v).cur = v.cur + 100 * i := by
  intro i hi
  induction i with
  | zero => simp [Victor.runN]
  | succ m ih =>
      have hm : m ≤ d := by omega
      have ihm := ih hm
      rw [Victor.runN_succ]
      have hgoal : (Victor.runN m v).goal = v.goal := Victor.runN_goal m v
      have hne : (Victor.runN m v).cur ≠ (Victor.runN m v).goal := by
        rw [ihm, hgoal, hd]
        have : (m : ℤ) < (d : ℤ) := by exact_mod_cast (by omega : m < d)
        intro hEq
        omega
      rw [Victor.run_up (by rw [hgoal]; exact hg) hne, ihm]
      push_cast
      ring

/-- Exact-multiple descent: if `goal = cur - 100·d` with the goal below
1500, the first `d` calls step linearly. -/
theorem Victor.runN_down_reach {v : VictorState} (hg : v.goal < 1500) (d : ℕ)
    (hd : v.goal = v.cur - 100 * d) :
    ∀ i, i ≤ d → (Victor.runN i v).cur = v.cur - 100 * i := by
  intro i hi
  induction i with
  | zero => simp [Victor.runN]
  | succ m ih =>
      have hm : m ≤ d := by omega
      have ihm := ih hm
      rw [Victor.runN_succ]
      have hgoal : (Victor.runN m v).goal = v.goal := Victor.runN_goal m v
      have hne : (Victor.runN m v).cur ≠ (Victor.runN m v).goal := by
        rw [ihm, hgoal, hd]
        have : (m : ℤ) < (d : ℤ) := by exact_mod_cast (by omega : m < d)
        intro hEq
        omega
      rw [Victor.run_down (by rw [hgoal]; exact hg) hne, ihm]
      push_cast
      ring

/-- Characterisation of goals actually reachable by repeated `run()`
calls: either already reached, or the neutral snap, or an exact multiple
of the step 100 on the side of 1500 the step direction moves toward. -/
theorem Victor.reach_char {v : VictorState}
    (h : ∃ n, (Victor.runN n v).cur = v.goal) :
    v.cur = v.goal ∨ v.goal = 1500 ∨
      (1500 < v.goal ∧ ∃ d : ℕ, v.goal = v.cur + 100 * d) ∨
      (v.goal < 1500 ∧ ∃ d : ℕ, v.goal = v.cur - 100 * d) := by
  by_cases hc : v.cur = v.goal
  · exact Or.inl hc
  by_cases h15 : v.goal = 1500
  · exact Or.inr (Or.inl h15)
  rcases lt_or_gt_of_ne h15 with hlt | hgt
  · refine Or.inr (Or.inr (Or.inr ⟨hlt, ?_⟩))
    by_contra hno
    push_neg at hno
    have hstep : ∀ k : ℕ, v.cur - 100 * k ≠ v.goal := by
      intro k hk
      exact hno k (by omega)
    obtain ⟨n, hn⟩ := h
    rw [Victor.runN_down_formula hlt hstep n] at hn
    exact hstep n hn
  · refine Or.inr (Or.inr (Or.inl ⟨hgt, ?_⟩))
    by_contra hno
    push_neg at hno
    have hstep : ∀ k : ℕ, v.cur + 100 * k ≠ v.goal := by
      intro k hk
      exact hno k (by omega)
    obtain ⟨n, hn⟩ := h
    rw [Victor.runN_up_formula hgt hstep n] at hn
    exact hstep n hn

/-- C2: For the ramped shooter actuator (`Victor`), for every goal
reachable from the current pulse width by repeated `run()` calls, after
`k = ceil(|goal - cur| / 100)` calls `cur` equals `goal`; no call ever
moves `cur` outside the closed interval between the starting `cur` and
`goal` (no overshoot); and when the goal is exactly one step
(`cur ± 100`) away, the very next `run()` call lands exactly on it. -/
theorem victor_ramp_reaches_goal (v : VictorState)
    (hreach : ∃ n, (Victor.runN n v).cur = v.goal) :
    (Victor.runN (((v.goal - v.cur).natAbs + 99) / 100) v).cur = v.goal ∧
    (∀ i : ℕ, min v.cur v.goal ≤ (Victor.runN i v).cur ∧
      (Victor.runN i v).cur ≤ max v.cur v.goal) ∧
    ((v.goal = v.cur + 100 ∨ v.goal = v.cur - 100) → (Victor.run v).cur = v.goal) := by
  rcases Victor.reach_char hreach with hc | h15 | ⟨hgt, d, hd⟩ | ⟨hlt, d, hd⟩
  · refine ⟨?_, ?_, ?_⟩
    · rw [Victor.runN_fixed hc]
      exact hc
    · intro i
      rw [Victor.runN_fixed hc]
      constructor <;> omega
    · intro hpm
      omega
  · by_cases hc : v.cur = v.goal
    · refine ⟨?_, ?_, ?_⟩
      · rw [Victor.runN_fixed hc]; exact hc
      · intro i
        rw [Victor.runN_fixed hc]
        constructor <;> omega
      · intro hpm; omega
    · have hk : 1 ≤ ((v.goal - v.cur).natAbs + 99) / 100 := by
        have : v.goal - v.cur ≠ 0 := by omega
        have : 1 ≤ (v.goal - v.cur).natAbs := by
          rcases Int.natAbs_eq (v.goal - v.cur) with he | he <;> omega
        omega
      refine ⟨?_, ?_, ?_⟩
      · rw [Victor.runN_snap h15 hk, h15]
      · intro i
        match i with
        | 0 =>
            simp only [Victor.runN, Function.iterate_zero, id]
            constructor <;> omega
        | (m + 1) =>
            rw [Victor.runN_snap h15 (by omega), h15]
            constructor <;> omega
      · intro _
        rw [Victor.run_snap h15, h15]
  · -- ascending case: goal = cur + 100·d, goal above 1500
    have hd1 : 1 ≤ d ∨ d = 0 := by omega
    rcases hd1 with hd1 | rfl
    swap
    · have hc : v.cur = v.goal := by push_cast at hd; omega
      refine ⟨?_, ?_, ?_⟩
      · rw [Victor.runN_fixed hc]; exact hc
      · intro i
        rw [Victor.runN_fixed hc]
        constructor <;> omega
      · intro hpm; omega
    have hcast : (v.goal - v.cur) = (100 * d : ℕ) := by push_cast; omega
    have habs : (v.goal - v.cur).natAbs = 100 * d := by
      rw [hcast]; exact Int.natAbs_ofNat _
    have hkd : ((v.goal - v.cur).natAbs + 99) / 100 = d := by
      rw [habs]; omega
    have hreachd : (Victor.runN d v).cur = v.goal := by
      rw [Victor.runN_up_reach hgt d hd d le_rfl]
      omega
    refine ⟨by rw [hkd]; exact hreachd, ?_, ?_⟩
    · intro i
      by_cases hi : i ≤ d
      · rw [Victor.runN_up_reach hgt d hd i hi]
        have : (i : ℤ) ≤ (d : ℤ) := by exact_mod_cast hi
        constructor <;> omega
      · have hsplit : i = (i - d) + d := by omega
        rw [hsplit, Victor.runN_add]
        have hfix : (Victor.runN d v).cur = (Victor.runN d v).goal := by
          rw [hreachd, Victor.runN_goal]
        rw [Victor.runN_fixed hfix, hreachd]
        constructor <;> omega
    · intro hpm
      have hone : v.goal = v.cur + 100 := by
        rcases hpm with hp | hp
        · exact hp
        · exfalso
          have : (0 : ℤ) ≤ (d : ℤ) := by positivity
          omega
      have hne : v.cur ≠ v.goal := by omega
      rw [Victor.run_up hgt hne]
      omega
  · -- descending case: goal = cur - 100·d, goal below 1500
    have hd1 : 1 ≤ d ∨ d = 0 := by omega
    rcases hd1 with hd1 | rfl
    swap
    · have hc : v.cur = v.goal := by push_cast at hd; omega
      refine ⟨?_, ?_, ?_⟩
      · rw [Victor.runN_fixed hc]; exact hc
      · intro i
        rw [Victor.runN_fixed hc]
        constructor <;> omega
      · intro hpm; omega
    have hcast : (v.cur - v.goal) = (100 * d : ℕ) := by push_cast; omega
    have habs : (v.goal - v.cur).natAbs = 100 * d := by
      have : v.goal - v.cur = -(100 * d : ℕ) := by push_cast; omega
      rw [this, Int.natAbs_neg]
      exact Int.natAbs_ofNat _
    have hkd : ((v.goal - v.cur).natAbs + 99) / 100 = d := by
      rw [habs]; omega
    have hreachd : (Victor.runN d v).cur = v.goal := by
      rw [Victor.runN_down_reach hlt d hd d le_rfl]
      omega
    refine ⟨by rw [hkd]; exact hreachd, ?_, ?_⟩
    · intro i
      by_cases hi : i ≤ d
      · rw [Victor.runN_down_reach hlt d hd i hi]
        have : (i : ℤ) ≤ (d : ℤ) := by exact_mod_cast hi
        constructor <;> omega
      · have hsplit : i = (i - d) + d := by omega
        rw [hsplit, Victor.runN_add]
        have hfix : (Victor.runN d v).cur = (Victor.runN d v).goal := by
          rw [hreachd, Victor.runN_goal]
        rw [Victor.runN_fixed hfix, hreachd]
        constructor <;> omega
    · intro hpm
      have hone : v.goal = v.cur - 100 := by
        rcases hpm with hp | hp
        · exfalso
          have : (0 : ℤ) ≤ (d : ℤ) := by positivity
          omega
        · exact hp
      have hne : v.cur ≠ v.goal := by omega
      rw [Victor.run_down hlt hne]
      omega

/-- Witness for `victor_ramp_reaches_goal` at the concrete state
`goal = 1700`, `cur = 1500` (two calls needed). -/
theorem victor_ramp_reaches_goal_witness :
    (Victor.runN ((((1700 : ℤ) - 1500).natAbs + 99) / 100)
        { goal := 1700, cur := 1500, reversed := true }).cur = 1700 :=
  (victor_ramp_reaches_goal { goal := 1700, cur := 1500, reversed := true }
    ⟨2, by decide⟩).1

/-- C9: whenever `goal` equals the neutral 1500 (e.g. after `off()`)
and `cur` differs from it, the very next `run()` call sets `cur` to 1500
in a single step, at any distance. -/
theorem victor_fast_stop (v : VictorState) (h1 : v.goal = 1500) (h2 : v.cur ≠ 1500) :
    (Victor.run v).cur = 1500 :=
  Victor.run_snap h1

/-- Witness for `victor_fast_stop`: snapping back from a far-away
`cur = 2000`. -/
theorem victor_fast_stop_witness :
    (Victor.run { goal := 1500, cur := 2000, reversed := true }).cur = 1500 :=
  victor_fast_stop { goal := 1500, cur := 2000, reversed := true } rfl (by decide)

/-- The pulse-width value `Victor::_set` computes:
`map(s, -100, 100, 1000, 2000) = 1500 + 5·s` (the division is exact). -/
theorem arduinoMap_victor_in (s : ℤ) :
    arduinoMap s (-100) 100 1000 2000 = 1500 + 5 * s := by
  unfold arduinoMap
  have h : (s - -100) * (2000 - 1000) = 200 * (5 * (s + 100)) := by ring
  rw [h, show (100 : ℤ) - -100 = 200 by norm_num,
    Int.mul_tdiv_cancel_left _ (by norm_num)]
  ring

/-- C10: starting from `cur = goal = 1500`, any command `s ∈ [-100,100]`
that is not a multiple of 20 maps to a goal `1000 + (s+100)·5` that lies
off the 100-step grid through 1500, and then `run()` never reaches the
goal: every call keeps moving `cur` by 100 in the same direction, so
`cur` leaves the pulse bounds `[1000, 2000]` and grows without bound. -/
theorem victor_offgrid_goal_diverges (s : ℤ)
    (h1 : -100 ≤ s) (h2 : s ≤ 100) (h3 : s % 20 ≠ 0) :
    (victorAfterRawSet s).goal = 1000 + (s + 100) * 5 ∧
    (∀ n : ℕ, (Victor.runN n (victorAfterRawSet s)).cur ≠ (victorAfterRawSet s).goal) ∧
    (∀ n : ℕ, (Victor.runN (n + 1) (victorAfterRawSet s)).cur =
      (Victor.runN n (victorAfterRawSet s)).cur + (if 0 < s then 100 else -100)) ∧
    (∀ B : ℤ, ∃ n : ℕ,
      ((Victor.runN n (victorAfterRawSet s)).cur < 1000 ∨
        2000 < (Victor.runN n (victorAfterRawSet s)).cur) ∧
      B < |(Victor.runN n (victorAfterRawSet s)).cur|) := by
  have hgoal : (victorAfterRawSet s).goal = 1500 + 5 * s := by
    unfold victorAfterRawSet Victor.rawSet
    exact arduinoMap_victor_in s
  have hcur : (victorAfterRawSet s).cur = 1500 := rfl
  have hs0 : s ≠ 0 := by omega
  rcases lt_or_gt_of_ne hs0 with hneg | hpos
  · -- negative command: goal below 1500, cur marches down forever
    have hlt : (victorAfterRawSet s).goal < 1500 := by omega
    have hstep : ∀ k : ℕ, (victorAfterRawSet s).cur - 100 * k ≠ (victorAfterRawSet s).goal := by
      intro k hk
      rw [hcur, hgoal] at hk
      omega
    have hformula : ∀ n : ℕ, (Victor.runN n (victorAfterRawSet s)).cur = 1500 - 100 * n := by
      intro n
      rw [Victor.runN_down_formula hlt hstep n, hcur]
    refine ⟨by rw [hgoal]; ring, ?_, ?_, ?_⟩
    · intro n hn
      rw [hformula n] at hn
      exact hstep n (by rw [hcur]; omega)
    · intro n
      rw [hformula n, hformula (n + 1)]
      have : ¬0 < s := by omega
      simp only [this, if_false]
      push_cast
      ring
    · intro B
      refine ⟨B.natAbs + 100, ?_, ?_⟩
      · rw [hformula (B.natAbs + 100)]
        left
        have : (100 : ℤ) ≤ (B.natAbs + 100 : ℕ) := by exact_mod_cast Nat.le_add_left 100 B.natAbs
        omega
      · rw [hformula (B.natAbs + 100)]
        have h1 : B ≤ B.natAbs := Int.le_natAbs
        have h2 : ((B.natAbs + 100 : ℕ) : ℤ) = (B.natAbs : ℤ) + 100 := by push_cast; ring
        rw [abs_of_nonpos (by omega)]
        omega
  · -- positive command: goal above 1500, cur marches up forever
    have hgt : 1500 < (victorAfterRawSet s).goal := by omega
    have hstep : ∀ k : ℕ, (victorAfterRawSet s).cur + 100 * k ≠ (victorAfterRawSet s).goal := by
      intro k hk
      rw [hcur, hgoal] at hk
      omega
    have hformula : ∀ n : ℕ, (Victor.runN n (victorAfterRawSet s)).cur = 1500 + 100 * n := by
      intro n
      rw [Victor.runN_up_formula hgt hstep n, hcur]
    refine ⟨by rw [hgoal]; ring, ?_, ?_, ?_⟩
    · intro n hn
      rw [hformula n] at hn
      exact hstep n (by rw [hcur]; omega)
    · intro n
      rw [hformula n, hformula (n + 1)]
      simp only [hpos, if_true]
      push_cast
      ring
    · intro B
      refine ⟨B.natAbs + 100, ?_, ?_⟩
      · rw [hformula (B.natAbs + 100)]
        right
        have : (100 : ℤ) ≤ (B.natAbs + 100 : ℕ) := by exact_mod_cast Nat.le_add_left 100 B.natAbs
        omega
      · rw [hformula (B.natAbs + 100)]
        have h1 : B ≤ B.natAbs := Int.le_natAbs
        have h2 : ((B.natAbs + 100 : ℕ) : ℤ) = (B.natAbs : ℤ) + 100 := by push_cast; ring
        rw [abs_of_nonneg (by omega)]
        omega

/-- Witness for `victor_offgrid_goal_diverges` at the concrete command
`s = 10` (mapped goal 1550). -/
theorem victor_offgrid_goal_diverges_witness :
    (victorAfterRawSet 10).goal = 1000 + ((10 : ℤ) + 100) * 5 ∧
    (∀ n : ℕ, (Victor.runN n (victorAfterRawSet 10)).cur ≠ (victorAfterRawSet 10).goal) ∧
    (∀ n : ℕ, (Victor.runN (n + 1) (victorAfterRawSet 10)).cur =
      (Victor.runN n (victorAfterRawSet 10)).cur + (if (0 : ℤ) < 10 then 100 else -100)) ∧
    (∀ B : ℤ, ∃ n : ℕ,
      ((Victor.runN n (victorAfterRawSet 10)).cur < 1000 ∨
        2000 < (Victor.runN n (victorAfterRawSet 10)).cur) ∧
      B < |(Victor.runN n (victorAfterRawSet 10)).cur|) :=
  victor_offgrid_goal_diverges 10 (by decide) (by decide) (by decide)

/-! ### Speed-controller round trip (C4) and Pololu output patterns (C8) -/

theorem Pololu.rawSet_speed (s : ℤ) (p : PololuState) : (Pololu.rawSet s p).speed = s := by
  unfold Pololu.rawSet
  split_ifs <;> rfl

theorem Pololu.rawSet_keeps_reversed (s : ℤ) (p : PololuState) :
    (Pololu.rawSet s p).reversed = p.reversed := by
  unfold Pololu.rawSet
  split_ifs <;> rfl

theorem Victor.rawSet_fixes_reversed (s : ℤ) (v : VictorState) :
    (Victor.rawSet s v).reversed = v.reversed := rfl

theorem Victor.set_reversed (s : ℤ) (v : VictorState) :
    (Victor.set s v).reversed = v.reversed := by
  unfold Victor.set
  split_ifs <;> rfl

/-- Inverse direction of the `Victor` pulse map:
`map(1500 + 5·x, 1000, 2000, -100, 100) = x` (again exact division). -/
theorem arduinoMap_victor_out (x : ℤ) :
    arduinoMap (1500 + 5 * x) 1000 2000 (-100) 100 = x := by
  unfold arduinoMap
  have h : (1500 + 5 * x - 1000) * (100 - -100) = 1000 * (100 + x) := by ring
  rw [h, show (2000 : ℤ) - 1000 = 1000 by norm_num,
    Int.mul_tdiv_cancel_left _ (by norm_num)]
  ring

/-- C4 counterexample: on the shooter (`Victor`, as configured at
startup: `reversed = true`, `cur = goal = 1500`), `set(100)` followed
immediately by `get()` returns 0, not the commanded 100, because
`Victor::_get` reads the ramped `cur`, which has not moved yet. -/
theorem victor_get_after_set_cex :
    Victor.get (Victor.set 100 shooterInit) = 0 := by decide

/-- C4 (amended): the `Pololu` round trip `get()` after `set(s)` always
returns `s` (sign inversion is applied symmetrically); the `Victor`
round trip returns `s` only once the ramp has caught up, i.e. in the
state whose `cur` equals the `goal` that `set(s)` installed. -/
theorem speed_controller_roundtrip :
    (∀ (p : PololuState) (s : ℤ), Pololu.get (Pololu.set s p) = s) ∧
    (∀ (v : VictorState) (s : ℤ),
      Victor.get { Victor.set s v with cur := (Victor.set s v).goal } = s) := by
  constructor
  · intro p s
    unfold Pololu.set Pololu.get Pololu.rawGet
    by_cases hr : p.reversed
    · simp [hr, Pololu.rawSet_speed, Pololu.rawSet_keeps_reversed]
    · simp [hr, Pololu.rawSet_speed, Pololu.rawSet_keeps_reversed]
  · intro v s
    unfold Victor.set
    by_cases hr : v.reversed
    · simp only [hr, if_true]
      unfold Victor.rawSet Victor.get Victor.rawGet
      simp only [hr]
      rw [show arduinoMap (-s) (-100) 100 1000 2000 = 1500 + 5 * (-s) from
        arduinoMap_victor_in (-s)]
      rw [show (1500 : ℤ) + 5 * (-s) = 1500 + 5 * (-s) from rfl,
        arduinoMap_victor_out (-s)]
      simp
    · simp only [hr, if_false]
      unfold Victor.rawSet Victor.get Victor.rawGet
      simp only [hr]
      rw [show arduinoMap s (-100) 100 1000 2000 = 1500 + 5 * s from
        arduinoMap_victor_in s]
      simp [arduinoMap_victor_out s]

/-- How many of the three drive patterns (stopped / forward / reverse)
the `Pololu` output lines currently show. -/
def patternCount (p : PololuState) : ℕ :=
  (if p.inA = false ∧ p.inB = false ∧ p.pwm = 0 then 1 else 0) +
  (if p.inA = false ∧ p.inB = true then 1 else 0) +
  (if p.inA = true ∧ p.inB = false then 1 else 0)

/-- C8 counterexample: `_set(1)` writes PWM `map(1,0,100,0,255) = 2`
(truncated), while rounding `1/100·255 = 2.55` would give 3. -/
theorem pololu_pwm_truncates_not_rounds :
    (Pololu.rawSet 1 feederInit).pwm = 2 ∧ round ((1 : ℚ) / 100 * 255) = 3 := by
  constructor
  · decide
  · rw [round_eq]
    norm_num

/-- C8 (amended): `Pololu::_set(s)` stores `speed = s`; `s = 0` drives
both direction lines inactive with PWM 0; `s < 0` drives the reverse
pattern (A high, B low) and `s > 0` the forward pattern (A low, B high),
in both cases with PWM `trunc(|s|·255/100)` (truncating, not rounding);
and exactly one of the three patterns is active, determined purely by
the sign of `s`. -/
theorem pololu_set_sign_patterns (p : PololuState) (s : ℤ) :
    (Pololu.rawSet s p).speed = s ∧
    (Pololu.rawSet s p).inA = decide (s < 0) ∧
    (Pololu.rawSet s p).inB = decide (0 < s) ∧
    (Pololu.rawSet s p).pwm = (if s = 0 then 0 else (|s| * 255).tdiv 100) ∧
    patternCount (Pololu.rawSet s p) = 1 := by
  rcases lt_trichotomy s 0 with h | h | h
  · have h0 : s ≠ 0 := by omega
    have habs : |s| = -s := abs_of_neg h
    have hpwm : arduinoMap s 0 (-100) 0 255 = (|s| * 255).tdiv 100 := by
      unfold arduinoMap
      rw [show (s - 0) * (255 - 0) = -(-s * 255) by ring, habs,
        show (-100 : ℤ) - 0 = -100 by norm_num, Int.neg_tdiv, Int.tdiv_neg, neg_neg]
      ring
    unfold Pololu.rawSet patternCount
    simp only [h0, if_false, h, if_true]
    refine ⟨by trivial, ?_, ?_, ?_, ?_⟩
    · simp [h]
    · simp [show ¬(0 < s) by omega]
    · simp [h0, hpwm]
    · simp
  · subst h
    unfold Pololu.rawSet patternCount
    simp
  · have h0 : s ≠ 0 := by omega
    have hneg : ¬s < 0 := by omega
    have habs : |s| = s := abs_of_pos h
    have hpwm : arduinoMap s 0 100 0 255 = (|s| * 255).tdiv 100 := by
      unfold arduinoMap
      rw [habs]
      norm_num
    unfold Pololu.rawSet patternCount
    simp only [h0, if_false, hneg]
    refine ⟨by trivial, ?_, ?_, ?_, ?_⟩
    · simp [hneg]
    · simp [h]
    · simp [h0, hpwm]
    · simp

/-- C1: the three `Trigger` endpoints unconditionally set
`res.success = true`, but the `manual` handler (linear-feeder variant)
never writes `res.success`: with a rosserial zero-initialised response
it therefore reports `success = false` on every call. -/
theorem comms_success_reporting :
    (∀ (t : ℕ) (s : Sys) (r : SrvResponse), (fireCallback t s r).2.success = true) ∧
    (∀ (t : ℕ) (s : Sys) (r : SrvResponse), (loadCallback t s r).2.success = true) ∧
    (∀ (s : Sys) (r : SrvResponse), (cancelCallback s r).2.success = true) ∧
    (∀ (req : ShooterManualRequest) (s : Sys) (r : SrvResponse),
      (manualCallback req s r).2 = r) ∧
    (∀ (req : ShooterManualRequest) (s : Sys),
      (manualCallback req s responseInit).2.success = false) := by
  refine ⟨fun _ _ _ => rfl, fun _ _ _ => rfl, fun _ _ => rfl, fun _ _ _ => rfl,
    fun _ _ => rfl⟩

/-! ### Sequencer (`AutoController`) claims -/

/-- For a monotone clock that has not wrapped, the unsigned subtraction
computes the ordinary elapsed time. -/
theorem wrapSub_eq {t s : ℕ} (h1 : s ≤ t) (h2 : t - s < ULMOD) :
    wrapSub t s = t - s := by
  unfold wrapSub ULMOD at *
  omega

theorem Pololu.off_eq (p : PololuState) :
    Pololu.off p = { p with speed := 0, inA := false, inB := false, pwm := 0 } := by
  unfold Pololu.off Pololu.set Pololu.rawSet
  by_cases hr : p.reversed <;> simp [hr]

theorem Victor.off_goal (v : VictorState) : (Victor.off v).goal = 1500 := by
  unfold Victor.off Victor.set Victor.rawSet
  by_cases hr : v.reversed <;> simp [hr] <;> decide

/-- C5: `cancel()` from any state calls `feeder.off()` and
`shooter.off()` (zero speed, direction lines inactive, PWM 0, neutral
1500 pulse goal), returns the sequencer to idle (`state = 0`), and
clears both phase timers and `loaded`; and after any sequence of
commands at most one of the Loading/Firing phases is active. -/
theorem cancel_forces_idle_and_zero_output :
    (∀ s : Sys,
      (Sys.cancel s).feeder = Pololu.off s.feeder ∧
      (Sys.cancel s).shooter = Victor.off s.shooter ∧
      (Sys.cancel s).feeder.speed = 0 ∧
      (Sys.cancel s).feeder.inA = false ∧
      (Sys.cancel s).feeder.inB = false ∧
      (Sys.cancel s).feeder.pwm = 0 ∧
      (Sys.cancel s).shooter.goal = 1500 ∧
      (Sys.cancel s).ctrl.state = 0 ∧
      (Sys.cancel s).ctrl.start_load_time = 0 ∧
      (Sys.cancel s).ctrl.start_fire_time = 0 ∧
      (Sys.cancel s).ctrl.loaded = false) ∧
    (∀ l : List Op,
      (isLoading (applyOps l sysInit) ∧ isFiring (applyOps l sysInit)) = False) := by
  constructor
  · intro s
    refine ⟨rfl, rfl, ?_, ?_, ?_, ?_, ?_, rfl, rfl, rfl, rfl⟩
    · rw [show (Sys.cancel s).feeder = Pololu.off s.feeder from rfl, Pololu.off_eq]
    · rw [show (Sys.cancel s).feeder = Pololu.off s.feeder from rfl, Pololu.off_eq]
    · rw [show (Sys.cancel s).feeder = Pololu.off s.feeder from rfl, Pololu.off_eq]
    · rw [show (Sys.cancel s).feeder = Pololu.off s.feeder from rfl, Pololu.off_eq]
    · exact Victor.off_goal s.shooter
  · intro l
    apply eq_false
    rintro ⟨ha, hb⟩
    unfold isLoading at ha
    unfold isFiring at hb
    omega

/-- C6: `fire()` moves the sequencer to Firing from any state, records
the phase start time and leaves `loaded` (and everything else) alone;
each tick with elapsed `< QUICKFIRE_TIME` drives both shooter and
feeder `on()` and changes nothing else; any tick with elapsed
`≥ QUICKFIRE_TIME` turns feeder and shooter off, clears `loaded` and
returns the sequencer to idle. -/
theorem fire_and_quickfire_phases :
    (∀ (s : Sys) (t : ℕ),
      (Sys.fire t s).ctrl.state = 2 ∧
      (Sys.fire t s).ctrl.start_fire_time = t ∧
      (Sys.fire t s).ctrl.loaded = s.ctrl.loaded ∧
      (Sys.fire t s).ctrl.start_load_time = s.ctrl.start_load_time ∧
      (Sys.fire t s).feeder = s.feeder ∧
      (Sys.fire t s).shooter = s.shooter) ∧
    (∀ (s : Sys) (t : ℕ),
      s.ctrl.state = 2 → s.ctrl.start_fire_time ≤ t →
      t - s.ctrl.start_fire_time < QUICKFIRE_TIME →
      (Sys.tick t s).shooter = Victor.onCmd s.shooter ∧
      (Sys.tick t s).feeder = Pololu.onCmd s.feeder ∧
      (Sys.tick t s).ctrl = s.ctrl) ∧
    (∀ (s : Sys) (t : ℕ),
      s.ctrl.state = 2 → s.ctrl.start_fire_time ≤ t →
      QUICKFIRE_TIME ≤ t - s.ctrl.start_fire_time →
      t - s.ctrl.start_fire_time < ULMOD →
      (Sys.tick t s).feeder = Pololu.off s.feeder ∧
      (Sys.tick t s).shooter = Victor.off s.shooter ∧
      (Sys.tick t s).ctrl.loaded = false ∧
      (Sys.tick t s).ctrl.state = 0 ∧
      (Sys.tick t s).ctrl.start_fire_time = 0 ∧
      (Sys.tick t s).ctrl.start_load_time = s.ctrl.start_load_time) := by
  refine ⟨fun s t => ⟨rfl, rfl, rfl, rfl, rfl, rfl⟩, ?_, ?_⟩
  · intro s t h1 h2 h3
    have hw : wrapSub t s.ctrl.start_fire_time = t - s.ctrl.start_fire_time :=
      wrapSub_eq h2 (by unfold QUICKFIRE_TIME at h3; unfold ULMOD; omega)
    unfold Sys.tick
    rw [if_neg (by rw [h1]; norm_num), if_pos h1]
    simp only [Sys.runFire, hw]
    rw [if_pos h3]
    exact ⟨rfl, rfl, rfl⟩
  · intro s t h1 h2 h3 h4
    have hw : wrapSub t s.ctrl.start_fire_time = t - s.ctrl.start_fire_time :=
      wrapSub_eq h2 h4
    unfold Sys.tick
    rw [if_neg (by rw [h1]; norm_num), if_pos h1]
    simp only [Sys.runFire, hw]
    rw [if_neg (not_lt.mpr h3)]
    exact ⟨rfl, rfl, rfl, rfl, rfl, rfl⟩

/-- Witness for `fire_and_quickfire_phases`: the spec's firing scenario
(`fire()` at t=0, ticks at t=150 and t=350) on the startup state. -/
theorem fire_and_quickfire_phases_witness :
    ((Sys.tick 150 (Sys.fire 0 sysInit)).shooter =
        Victor.onCmd (Sys.fire 0 sysInit).shooter ∧
      (Sys.tick 150 (Sys.fire 0 sysInit)).feeder =
        Pololu.onCmd (Sys.fire 0 sysInit).feeder ∧
      (Sys.tick 150 (Sys.fire 0 sysInit)).ctrl = (Sys.fire 0 sysInit).ctrl) ∧
    ((Sys.tick 350 (Sys.fire 0 sysInit)).ctrl.loaded = false ∧
      (Sys.tick 350 (Sys.fire 0 sysInit)).ctrl.state = 0) :=
  ⟨fire_and_quickfire_phases.2.1 (Sys.fire 0 sysInit) 150 rfl (by decide) (by decide),
    ⟨(fire_and_quickfire_phases.2.2 (Sys.fire 0 sysInit) 350 rfl (by decide) (by decide)
        (by decide)).2.2.1,
      (fire_and_quickfire_phases.2.2 (Sys.fire 0 sysInit) 350 rfl (by decide) (by decide)
        (by decide)).2.2.2.1⟩⟩

/-- C7: `load()` moves the sequencer to Loading from any state
(including Loading itself, restarting the timer), records the phase
start time and clears `loaded`; then each tick drives the feeder
`reverse()` while elapsed `< RETRACT_TIME`, drives it `on()` while
`RETRACT_TIME ≤ elapsed < RETRACT_TIME + LOAD_TIME`, and once elapsed
`≥ RETRACT_TIME + LOAD_TIME` stops the feeder, turns the shooter on,
sets `loaded = true` and returns to idle. -/
theorem load_and_loading_phases :
    (∀ (s : Sys) (t : ℕ),
      (Sys.load t s).ctrl.state = 1 ∧
      (Sys.load t s).ctrl.start_load_time = t ∧
      (Sys.load t s).ctrl.loaded = false ∧
      (Sys.load t s).ctrl.start_fire_time = s.ctrl.start_fire_time ∧
      (Sys.load t s).feeder = s.feeder ∧
      (Sys.load t s).shooter = s.shooter) ∧
    (∀ (s : Sys) (t : ℕ),
      s.ctrl.state = 1 → s.ctrl.start_load_time ≤ t →
      t - s.ctrl.start_load_time < RETRACT_TIME →
      (Sys.tick t s).feeder = Pololu.reverse s.feeder ∧
      (Sys.tick t s).shooter = s.shooter ∧
      (Sys.tick t s).ctrl = s.ctrl) ∧
    (∀ (s : Sys) (t : ℕ),
      s.ctrl.state = 1 → s.ctrl.start_load_time ≤ t →
      RETRACT_TIME ≤ t - s.ctrl.start_load_time →
      t - s.ctrl.start_load_time < RETRACT_TIME + LOAD_TIME →
      (Sys.tick t s).feeder = Pololu.onCmd s.feeder ∧
      (Sys.tick t s).shooter = s.shooter ∧
      (Sys.tick t s).ctrl = s.ctrl) ∧
    (∀ (s : Sys) (t : ℕ),
      s.ctrl.state = 1 → s.ctrl.start_load_time ≤ t →
      RETRACT_TIME + LOAD_TIME ≤ t - s.ctrl.start_load_time →
      t - s.ctrl.start_load_time < ULMOD →
      (Sys.tick t s).feeder = Pololu.off s.feeder ∧
      (Sys.tick t s).shooter = Victor.onCmd s.shooter ∧
      (Sys.tick t s).ctrl.loaded = true ∧
      (Sys.tick t s).ctrl.state = 0 ∧
      (Sys.tick t s).ctrl.start_load_time = 0 ∧
      (Sys.tick t s).ctrl.start_fire_time = s.ctrl.start_fire_time) := by
  refine ⟨fun s t => ⟨rfl, rfl, rfl, rfl, rfl, rfl⟩, ?_, ?_, ?_⟩
  · intro s t h1 h2 h3
    have hw : wrapSub t s.ctrl.start_load_time = t - s.ctrl.start_load_time :=
      wrapSub_eq h2 (by unfold RETRACT_TIME at h3; unfold ULMOD; omega)
    unfold Sys.tick
    rw [if_pos h1]
    simp only [Sys.runLoad, hw]
    rw [if_pos h3]
    exact ⟨rfl, rfl, rfl⟩
  · intro s t h1 h2 h3 h4
    have hw : wrapSub t s.ctrl.start_load_time = t - s.ctrl.start_load_time :=
      wrapSub_eq h2 (by unfold RETRACT_TIME LOAD_TIME at h4; unfold ULMOD; omega)
    unfold Sys.tick
    rw [if_pos h1]
    simp only [Sys.runLoad, hw]
    rw [if_neg (not_lt.mpr h3), if_pos h4]
    exact ⟨rfl, rfl, rfl⟩
  · intro s t h1 h2 h3 h4
    have hw : wrapSub t s.ctrl.start_load_time = t - s.ctrl.start_load_time :=
      wrapSub_eq h2 h4
    have h3a : RETRACT_TIME ≤ t - s.ctrl.start_load_time := by
      unfold RETRACT_TIME LOAD_TIME at h3
      unfold RETRACT_TIME
      omega
    unfold Sys.tick
    rw [if_pos h1]
    simp only [Sys.runLoad, hw]
    rw [if_neg (not_lt.mpr h3a), if_neg (not_lt.mpr h3)]
    exact ⟨rfl, rfl, rfl, rfl, rfl, rfl⟩

/-- Witness for `load_and_loading_phases`: the spec's loading scenario
(`load()` at t=0, ticks at t=500, t=1200, t=1700) on the startup state. -/
theorem load_and_loading_phases_witness :
    ((Sys.tick 500 (Sys.load 0 sysInit)).feeder =
        Pololu.reverse (Sys.load 0 sysInit).feeder) ∧
    ((Sys.tick 1200 (Sys.load 0 sysInit)).feeder =
        Pololu.onCmd (Sys.load 0 sysInit).feeder) ∧
    ((Sys.tick 1700 (Sys.load 0 sysInit)).ctrl.loaded = true ∧
      (Sys.tick 1700 (Sys.load 0 sysInit)).ctrl.state = 0 ∧
      (Sys.tick 1700 (Sys.load 0 sysInit)).shooter =
        Victor.onCmd (Sys.load 0 sysInit).shooter) :=
  ⟨(load_and_loading_phases.2.1 (Sys.load 0 sysInit) 500 rfl (by decide) (by decide)).1,
    (load_and_loading_phases.2.2.1 (Sys.load 0 sysInit) 1200 rfl (by decide) (by decide)
      (by decide)).1,
    (load_and_loading_phases.2.2.2 (Sys.load 0 sysInit) 1700 rfl (by decide) (by decide)
      (by decide)).2.2.1,
    (load_and_loading_phases.2.2.2 (Sys.load 0 sysInit) 1700 rfl (by decide) (by decide)
      (by decide)).2.2.2.1,
    (load_and_loading_phases.2.2.2 (Sys.load 0 sysInit) 1700 rfl (by decide) (by decide)
      (by decide)).2.1⟩

/-- A tick preserves the invariant that `loaded` entails the sequencer
being idle or firing. -/
theorem tick_preserves_loaded_inv (t : ℕ) (s : Sys)
    (ih : s.ctrl.loaded = true → s.ctrl.state = 0 ∨ s.ctrl.state = 2) :
    (Sys.tick t s).ctrl.loaded = true →
      (Sys.tick t s).ctrl.state = 0 ∨ (Sys.tick t s).ctrl.state = 2 := by
  unfold Sys.tick
  by_cases h1 : s.ctrl.state = 1
  · rw [if_pos h1]
    simp only [Sys.runLoad]
    split_ifs
    · exact ih
    · exact ih
    · intro _
      exact Or.inl rfl
  · rw [if_neg h1]
    by_cases h2 : s.ctrl.state = 2
    · rw [if_pos h2]
      simp only [Sys.runFire]
      split_ifs
      · intro _
        exact Or.inr h2
      · intro _
        exact Or.inl rfl
    · rw [if_neg h2]
      exact ih

/-- C3 (amended): in every reachable state, `loaded = true` implies the
sequencer is idle (`state = 0`) or firing (`state = 2`) — never in the
Loading phase.  (`fire()` preserves `loaded`, so a completed load stays
flagged while the quickfire phase runs; the unamended claim that
`loaded` entails Idle alone is refuted by `loaded_while_firing_cex`.) -/
theorem loaded_implies_idle_or_firing {s : Sys} (h : Reachable s) :
    s.ctrl.loaded = true → s.ctrl.state = 0 ∨ s.ctrl.state = 2 := by
  induction h with
  | init =>
      intro _
      exact Or.inl rfl
  | load t hr ih =>
      intro hl
      simp [Sys.load] at hl
  | fire t hr ih =>
      intro _
      exact Or.inr rfl
  | cancel hr ih =>
      intro hl
      simp [Sys.cancel, ctrlReset] at hl
  | tick t hr ih =>
      exact tick_preserves_loaded_inv t _ ih

/-- Witness for `loaded_implies_idle_or_firing`: the reachable state
right after a completed load (`load()` at t=0, tick at t=1650), where
`loaded = true`. -/
theorem loaded_implies_idle_or_firing_witness :
    (Sys.tick 1650 (Sys.load 0 sysInit)).ctrl.state = 0 ∨
      (Sys.tick 1650 (Sys.load 0 sysInit)).ctrl.state = 2 :=
  loaded_implies_idle_or_firing
    (Reachable.tick 1650 (Reachable.load 0 Reachable.init)) (by decide)

/-- C3 counterexample state: complete a load (`load()` at t=0, tick at
t=1650, which sets `loaded = true` and returns to idle), then call
`fire()`. -/
def loadedFiringState : Sys := Sys.fire 1650 (Sys.tick 1650 (Sys.load 0 sysInit))

/-- C3 counterexample: the state after load-complete-then-`fire()` is
reachable, has `loaded = true`, and is in the Firing phase (`state = 2`,
not Idle) — `fire()` does not clear `loaded`, so "loaded only when
Idle" fails. -/
theorem loaded_while_firing_cex :
    Reachable loadedFiringState ∧
    loadedFiringState.ctrl.loaded = true ∧
    loadedFiringState.ctrl.state = 2 :=
  ⟨Reachable.fire 1650 (Reachable.tick 1650 (Reachable.load 0 Reachable.init)),
    by decide, by decide⟩
